import Mathlib

/-!
Verification of the `torch-unit-ddpm-vc` repository against its
natural-language specification.

The development shallowly embeds the two core source files:
  * `styleddpm/__init__.py` — the diffusion orchestrator `StyleDDPMVC`
    (`forward`, `diffusion`, `inverse`, `denoise`, `save`, `load`);
  * `styleddpm/unet.py` — the `UNet` noise estimator.

Two complementary views are used, both translated from the source:
  * a structural view over integer-valued tensors (shape list + flat data)
    for the sampling loop, style branch, trace bookkeeping and checkpoint
    plumbing — fully computable so concrete runs evaluate by `decide`/`rfl`;
  * an analytic per-element view over the reals for the schedule arithmetic
    of `diffusion` and `inverse` (`sqrt`, `sigmoid` are real functions).

Collaborator modules that are not part of the sources (Scheduler, Embedder,
StyleEncoder, ContextEncoder, the residual-block internals of
`styleddpm/resblock.py`) are abstracted: they appear as opaque function
parameters or, where a claim needs their contract, are modelled from the
spec and marked as such in the doc comment.
-/

/-! ### Structural tensor model

A tensor is a shape together with flattened (row-major) numeric data.
Integers stand in for the float payload: none of the structural claims
depend on float rounding, and any computable payload type with `+`, `*`
and decidable equality would do.
-/

/-- A (possibly mis-shaped) tensor: shape list plus flattened data. -/
structure Tensor where
  shape : List ℕ
  data : List ℤ
deriving DecidableEq, Repr

/-- Number of elements announced by the shape, `torch.Tensor.numel`. -/
def Tensor.numel (t : Tensor) : ℕ := t.shape.prod

/-- Tensor rank, `torch.Tensor.dim()`. -/
def Tensor.dim (t : Tensor) : ℕ := t.shape.length

/-- Python `bool(tensor)`: a one-element tensor is truthy when its single
value is nonzero; any other element count raises `RuntimeError`. -/
def torchBool (t : Tensor) : Except String Bool :=
  match t.data with
  | [x] => .ok (decide (x ≠ 0))
  | [] => .error "Boolean value of Tensor with no values is ambiguous"
  | _ => .error "Boolean value of Tensor with more than one element is ambiguous"

/-- Python `a or b` where `a` is an optional tensor (`None` is falsy, a
tensor is coerced through `bool(...)`).  This embeds the source line
`signal = signal or torch.randn_like(context)`. -/
def pyOr (signal : Option Tensor) (alt : Tensor) : Except String Tensor :=
  match signal with
  | none => .ok alt
  | some s =>
    match torchBool s with
    | .error e => .error e
    | .ok true => .ok s
    | .ok false => .ok alt

/-- `torch.randn_like(t)`: a fresh draw with the shape of `t`.  The random
source is passed explicitly as a stream of values, read off in row-major
order. -/
def randnLike (t : Tensor) (rand : ℕ → ℤ) : Tensor :=
  ⟨t.shape, (List.range t.numel).map rand⟩

/-- The source line `step = torch.tensor([step], device=signal.device)`:
a one-element rank-1 step tensor, independent of the batch size. -/
def stepTensor (step : ℕ) : Tensor :=
  ⟨[1], [(step : ℤ)]⟩

/-- The source line `signal = mean + torch.randn_like(mean) * std[:, None, None]`
for a rank-3 `mean`: `std` is rank-1 and is broadcast across the mel and
time dimensions (and across the batch when it has a single element). -/
def Tensor.addNoise (mean noise std : Tensor) : Tensor :=
  match mean.shape with
  | [b, mel, t] =>
    ⟨[b, mel, t], (List.range (b * mel * t)).map fun idx =>
      let bi := idx / (mel * t)
      let s := if std.data.length = 1 then std.data.headD 0 else std.data.getD bi 0
      mean.data.getD idx 0 + noise.data.getD idx 0 * s⟩
  | _ => mean

/-! ### The orchestrator `StyleDDPMVC`

The collaborator submodules are opaque function fields; `forward` below is
the line-by-line embedding of `StyleDDPMVC.forward`. -/

/-- The fields of `StyleDDPMVC` that `forward` reads: the step count
`self.steps`, the style encoder (returning an intermediate and the style
vector, of which `forward` keeps only the second), the masked context
encoder, and the single-reverse-step `inverse` (signal, context, styles,
steps ↦ mean, std). -/
structure Model where
  S : ℕ
  encoder : Tensor → Tensor × Tensor
  maskedEncoder : Tensor → Tensor
  inverse : Tensor → Tensor → Tensor → Tensor → Tensor × Tensor

/-- Python `range(S - 1, -1, -1)`: the list `[S-1, ..., 1, 0]`. -/
def rangeDown (S : ℕ) : List ℕ := (List.range S).reverse

/-- One iteration of the reverse loop body in `StyleDDPMVC.forward`:
build the `[1]`-shaped step tensor, call `inverse` for the posterior mean
and std, then draw `signal = mean + randn_like(mean) * std[:, None, None]`.
`stepRand step` is the fresh noise stream consumed at this step. -/
def loopBody (inv : Tensor → Tensor → Tensor → Tensor → Tensor × Tensor)
    (context styles : Tensor) (stepRand : ℕ → ℕ → ℤ)
    (step : ℕ) (signal : Tensor) : Tensor :=
  let stepT := stepTensor step
  let ms := inv signal context styles stepT
  Tensor.addNoise ms.1 (randnLike ms.1 (stepRand step)) ms.2

/-- The reverse loop of `StyleDDPMVC.forward`: iterate `loopBody` over the
step list, appending each new signal to the trace `ir`. -/
def revChain (inv : Tensor → Tensor → Tensor → Tensor → Tensor × Tensor)
    (context styles : Tensor) (stepRand : ℕ → ℕ → ℤ) :
    List ℕ → Tensor → List Tensor → Tensor × List Tensor
  | [], signal, ir => (signal, ir)
  | step :: rest, signal, ir =>
    let s2 := loopBody inv context styles stepRand step signal
    revChain inv context styles stepRand rest s2 (ir ++ [s2])

namespace StyleDDPMVC

/-- Embedding of `StyleDDPMVC.forward`:
`signal = signal or torch.randn_like(context)` (which raises for a
multi-element supplied tensor); the style branch on tensor rank; context
encoding; the trace seeded with the initial signal; and the reverse chain
over steps `S-1, ..., 0`.  Returns the final signal together with the full
trace. -/
def forward (M : Model) (context styles : Tensor) (signal : Option Tensor)
    (initRand : ℕ → ℤ) (stepRand : ℕ → ℕ → ℤ) :
    Except String (Tensor × List Tensor) :=
  match pyOr signal (randnLike context initRand) with
  | .error e => .error e
  | .ok signal0 =>
    let styles2 := if styles.dim = 3 then (M.encoder styles).2 else styles
    let context2 := M.maskedEncoder context
    .ok (revChain M.inverse context2 styles2 stepRand (rangeDown M.S) signal0 [signal0])

/-- The part of `StyleDDPMVC.forward` after the style branch, taking the
already-resolved style vector: it never touches the style encoder. -/
def forwardCore (M : Model) (context styleVec : Tensor) (signal : Option Tensor)
    (initRand : ℕ → ℤ) (stepRand : ℕ → ℕ → ℤ) :
    Except String (Tensor × List Tensor) :=
  match pyOr signal (randnLike context initRand) with
  | .error e => .error e
  | .ok signal0 =>
    let context2 := M.maskedEncoder context
    .ok (revChain M.inverse context2 styleVec stepRand (rangeDown M.S) signal0 [signal0])

end StyleDDPMVC

/-! ### The U-Net, value level

Embedding of `UNet.forward` from `styleddpm/unet.py`.  The residual
blocks, convolutions and upsamplers are opaque tensor functions (their
internals live in `styleddpm/resblock.py` and in torch); what matters
here is exactly which arguments each layer receives: the downsampling
blocks are applied as `dblock(x, aux, context)` — no styles — while the
neck and the upsampling blocks are applied as `block(x, aux, styles)`. -/

/-- Elementwise tensor sum (the skip connection `upsample(x) + i`). -/
def Tensor.add (a b : Tensor) : Tensor :=
  ⟨a.shape, List.zipWith (· + ·) a.data b.data⟩

/-- The layers of `UNet` that `forward` reads, as opaque functions.
Auxiliary-conditioned blocks take `(x, aux, cond)` where `cond` is the
smoothed context (down path) or the style vector (neck, up path). -/
structure UNet where
  proj : Tensor → Tensor
  smoother : Tensor → Tensor
  dblocks : List (Tensor → Tensor → Tensor → Tensor)
  downsamples : List (Tensor → Tensor)
  neck : Tensor → Tensor → Tensor → Tensor
  upsamples : List (Tensor → Tensor)
  ublocks : List (Tensor → Tensor → Tensor → Tensor)
  proj_out : Tensor → Tensor

/-- The `for dblock, downsample in zip(self.dblocks, self.downsamples)`
loop: apply the block, cache its output in `internals`, downsample.
Returns the cached skip activations and the value entering the neck. -/
def downLoop (aux ctx : Tensor) :
    List ((Tensor → Tensor → Tensor → Tensor) × (Tensor → Tensor)) →
    Tensor → List Tensor × Tensor
  | [], x => ([], x)
  | (dblock, downsample) :: rest, x =>
    let y := dblock x aux ctx
    let r := downLoop aux ctx rest (downsample y)
    (y :: r.1, r.2)

/-- The `for i, ublock, upsample in zip(reversed(internals), ...)` loop:
upsample, add the matching skip, apply the style-conditioned block. -/
def upLoop (aux styles : Tensor) :
    List (Tensor × ((Tensor → Tensor → Tensor → Tensor) × (Tensor → Tensor))) →
    Tensor → Tensor
  | [], x => x
  | (i, ublock, upsample) :: rest, x =>
    upLoop aux styles rest (ublock ((upsample x).add i) aux styles)

namespace UNet

/-- Embedding of `UNet.forward`: input projection, context smoothing, the
downsampling loop, the style-conditioned neck, the upsampling loop with
skip sums, and the output projection. -/
def forward (u : UNet) (inputs aux styles context : Tensor) : Tensor :=
  let x := u.proj inputs
  let ctx := u.smoother context
  let d := downLoop aux ctx (u.dblocks.zip u.downsamples) x
  let x2 := u.neck d.2 aux styles
  let x3 := upLoop aux styles (d.1.reverse.zip (u.ublocks.zip u.upsamples)) x2
  u.proj_out x3

/-- Every value computed on the downsampling side of `UNet.forward`: the
input projection, the smoothed context, the cached skip activations
(each downsampling block's output), and the value handed to the neck.
Note the arguments: the style vector is not among them. -/
def downPath (u : UNet) (inputs aux context : Tensor) :
    Tensor × Tensor × List Tensor × Tensor :=
  let x := u.proj inputs
  let ctx := u.smoother context
  let d := downLoop aux ctx (u.dblocks.zip u.downsamples) x
  (x, ctx, d.1, d.2)

/-- The remainder of `UNet.forward` — neck, upsampling loop, output
projection — consuming the down-path values; this is where the style
vector first enters. -/
def upPhase (u : UNet) (dp : Tensor × Tensor × List Tensor × Tensor)
    (aux styles : Tensor) : Tensor :=
  let x2 := u.neck dp.2.2.2 aux styles
  let x3 := upLoop aux styles (dp.2.2.1.reverse.zip (u.ublocks.zip u.upsamples)) x2
  u.proj_out x3

end UNet

/-! ### The U-Net, shape level

Shape semantics of `UNet.forward`, used for the shape-preservation claim.
A stage-`i` activation is summarised as its `(channels, length)` pair
(the batch dimension is untouched by every layer).

Modelled from the spec: the residual-block internals
(`styleddpm/resblock.py`, `AuxResidualBlock` and
`ModulatedAuxResidualBlock`) are not among the sources; per the spec's
block contract (and the shape comments in `unet.py`) they preserve the
shape of their first argument, so they are identities at the shape level
and only the projections, strided convolutions and upsamplers move
shapes. -/

/-- Output length of `torch.nn.Conv1d` with kernel `k`, stride `s`,
padding `p` on input length `t`: `(t + 2p - k) / s + 1` (floor). -/
def convOutLen (t k s p : ℕ) : ℕ := (t + 2 * p - k) / s + 1

/-- Shape action of the downsampling path: each level caches its
`(channels, length)` skip shape, then the strided convolution
(`Conv1d(C·2^i, C·2^(i+1), kernels, 2, padding=kernels // 2)`) doubles
channels and halves the length.  `n` is the level count `stages - 1`. -/
def downShapes (k : ℕ) : ℕ → ℕ × ℕ → List (ℕ × ℕ) × (ℕ × ℕ)
  | 0, s => ([], s)
  | n + 1, (c, t) =>
    let r := downShapes k n (2 * c, convOutLen t k 2 (k / 2))
    ((c, t) :: r.1, r.2)

/-- Shape action of the upsampling path over the reversed skip shapes:
nearest-neighbour upsampling doubles the length, the convolution
(`Conv1d(C·2^i, C·2^(i-1), kernels, padding=kernels // 2)`) halves the
channels; the skip sum `upsample(x) + i` requires the two shapes to
agree (a mismatch is a torch broadcast error, `none` here). -/
def upShapes (k : ℕ) : List (ℕ × ℕ) → ℕ × ℕ → Option (ℕ × ℕ)
  | [], s => some s
  | (cs, ts) :: rest, (c, t) =>
    if (c / 2, convOutLen (2 * t) k 1 (k / 2)) = (cs, ts) then
      upShapes k rest (cs, ts)
    else none

/-- Shape semantics of the whole of `UNet.forward` on a `[B, mel, T]`
input: `proj` maps mel to `channels` hidden channels at length `T`; the
down path, neck (shape-preserving block) and up path act on
`(channels, length)`; the output projection maps the hidden channels
back to mel.  `none` marks a torch shape error. -/
def unetShape (mel channels kernels stages : ℕ) (b t : ℕ) :
    Option (ℕ × ℕ × ℕ) :=
  match upShapes kernels
      (downShapes kernels (stages - 1) (channels, t)).1.reverse
      (downShapes kernels (stages - 1) (channels, t)).2 with
  | none => none
  | some (c, tf) => if c = channels then some (b, mel, tf) else none

/-! ### Analytic view of the schedule arithmetic

`diffusion` and `inverse` apply the same scalar formula to every tensor
element, indexing the length-`S+1` schedule arrays at `steps + 1`
(zero-based caller step shifted to the one-based schedule).  We embed the
per-element real arithmetic; the scheduler output `(logsnr, betas)` is an
arbitrary pair of real sequences. -/

/-- `torch.sigmoid` on the reals. -/
noncomputable def sigmoid (x : ℝ) : ℝ := 1 / (1 + Real.exp (-x))

namespace StyleDDPMVC

/-- Per-element embedding of `StyleDDPMVC.diffusion`: with `next_` the mean
and std come from `betas[steps + 1]` (one-step forward from `z_{t-1}`);
otherwise from `alphas_bar[steps + 1] = sigmoid(logsnr[steps + 1])`
(direct noising of `z_0`).  The returned mean carries no noise term; the
std is returned separately. -/
noncomputable def diffusion (logsnr betas : ℕ → ℝ) (signal : ℝ) (t : ℕ)
    (next_ : Bool) : ℝ × ℝ :=
  if next_ then
    let beta := betas (t + 1)
    (Real.sqrt (1 - beta) * signal, Real.sqrt beta)
  else
    let alphas_bar : ℕ → ℝ := fun i => sigmoid (logsnr i)
    let alpha_bar := alphas_bar (t + 1)
    (Real.sqrt alpha_bar * signal, Real.sqrt (1 - alpha_bar))

/-- The posterior variance computed inside `StyleDDPMVC.inverse`
(`var = (1 - alphas_bar[prev]) / (1 - alphas_bar[steps]) * betas[steps]`
with `prev = t`, `steps = t + 1` after the zero-based→one-based shift). -/
noncomputable def inverseVar (logsnr betas : ℕ → ℝ) (t : ℕ) : ℝ :=
  let alphas_bar : ℕ → ℝ := fun i => sigmoid (logsnr i)
  (1 - alphas_bar t) / (1 - alphas_bar (t + 1)) * betas (t + 1)

/-- Per-element embedding of `StyleDDPMVC.inverse`: the U-Net's denoised
estimate enters through the abstract `denoise` collaborator; `prev = t`
and `steps = t + 1` realise the source's `prev, steps = steps, steps + 1`
shift into the one-based schedule. -/
noncomputable def inverse (logsnr betas : ℕ → ℝ)
    (denoise : ℝ → ℝ → ℝ → ℕ → ℝ)
    (signal context styles : ℝ) (t : ℕ) : ℝ × ℝ :=
  let alphas : ℕ → ℝ := fun i => 1 - betas i
  let alphas_bar : ℕ → ℝ := fun i => sigmoid (logsnr i)
  let denoised := denoise signal context styles t
  let prev := t
  let steps := t + 1
  let mean :=
    Real.sqrt (alphas_bar prev) * betas steps / (1 - alphas_bar steps) * denoised
      + Real.sqrt (alphas steps) * (1 - alphas_bar prev) / (1 - alphas_bar steps) * signal
  (mean, Real.sqrt (inverseVar logsnr betas prev))

end StyleDDPMVC

/-! ### The spec's formulas, stated in the spec's own words

These are the refinement targets for the claims about `inverse` and
`diffusion`; they transcribe the spec sentences (with the spec's
one-based indices `t`, `t-1` written as `t+1`, `t` for a zero-based
caller step `t`). -/

/-- Spec posterior mean:
`sqrt(alphas_bar[t]) * betas[t+1] / (1 - alphas_bar[t+1])` times the
denoised estimate plus `sqrt(alphas[t+1]) * (1 - alphas_bar[t]) /
(1 - alphas_bar[t+1])` times the noisy signal, with `alphas = 1 - betas`
and `alphas_bar = sigmoid(logsnr)`. -/
noncomputable def specPosteriorMean (logsnr betas : ℕ → ℝ)
    (denoise : ℝ → ℝ → ℝ → ℕ → ℝ)
    (signal context styles : ℝ) (t : ℕ) : ℝ :=
  Real.sqrt (sigmoid (logsnr t)) * betas (t + 1) / (1 - sigmoid (logsnr (t + 1)))
      * denoise signal context styles t
    + Real.sqrt (1 - betas (t + 1)) * (1 - sigmoid (logsnr t))
      / (1 - sigmoid (logsnr (t + 1))) * signal

/-- Spec posterior std:
`sqrt((1 - alphas_bar[t]) / (1 - alphas_bar[t+1]) * betas[t+1])`. -/
noncomputable def specPosteriorStd (logsnr betas : ℕ → ℝ) (t : ℕ) : ℝ :=
  Real.sqrt ((1 - sigmoid (logsnr t)) / (1 - sigmoid (logsnr (t + 1))) * betas (t + 1))

/-- Spec one-step forward diffusion:
mean `sqrt(1 - betas[t+1]) * signal`, std `sqrt(betas[t+1])`. -/
noncomputable def specDiffusionNext (betas : ℕ → ℝ) (signal : ℝ) (t : ℕ) : ℝ × ℝ :=
  (Real.sqrt (1 - betas (t + 1)) * signal, Real.sqrt (betas (t + 1)))

/-- Spec direct diffusion:
mean `sqrt(alphas_bar[t+1]) * signal`, std `sqrt(1 - alphas_bar[t+1])`
with `alphas_bar = sigmoid(logsnr)`. -/
noncomputable def specDiffusionDirect (logsnr : ℕ → ℝ) (signal : ℝ) (t : ℕ) : ℝ × ℝ :=
  (Real.sqrt (sigmoid (logsnr (t + 1))) * signal,
    Real.sqrt (1 - sigmoid (logsnr (t + 1))))

/-! ### Checkpoint save / load

`save` builds `{'model': ..., 'optim'?: ...}`; `load` reads
`states['model']` and, when an optimizer is passed, `states['optim']`
(a missing key is a Python `KeyError`).  Dictionaries are embedded as
association lists, lookups as `KeyError`-raising finds; the serialized
parameter blobs are an abstract type `α`. -/

/-- Python `d[k]` on a dict: the value, or a `KeyError`. -/
def dictFind {α : Type} (d : List (String × α)) (k : String) : Except String α :=
  match d with
  | [] => .error ("KeyError: " ++ k)
  | (k2, v) :: rest => if k2 = k then .ok v else dictFind rest k

/-- Python `k in d` on a dict. -/
def hasKey {α : Type} (d : List (String × α)) (k : String) : Bool :=
  d.any fun kv => kv.1 = k

namespace StyleDDPMVC

/-- Embedding of `StyleDDPMVC.save`: the written checkpoint dict —
`{'model': state_dict}` extended with `'optim'` exactly when an optimizer
was passed. -/
def save {α : Type} (modelState : α) (optim : Option α) : List (String × α) :=
  let dump := [("model", modelState)]
  match optim with
  | some o => dump ++ [("optim", o)]
  | none => dump

/-- Embedding of `StyleDDPMVC.load`: restore `states['model']` and, iff an
optimizer is passed, `states['optim']`.  Returns the pair of restored
states (`none` in the second slot when no optimizer restore was
requested); key misses surface as errors. -/
def load {α : Type} (states : List (String × α)) (optimPassed : Bool) :
    Except String (α × Option α) :=
  match dictFind states "model" with
  | .error e => .error e
  | .ok m =>
    if optimPassed then
      match dictFind states "optim" with
      | .error e => .error e
      | .ok o => .ok (m, some o)
    else
      .ok (m, none)

end StyleDDPMVC

/-! ### Trace bookkeeping helpers

Functional characterisations of the reverse chain, used to reason about
`revChain`: `snaps` is the list of per-iteration snapshots and `chainRun`
the final signal. -/

/-- The snapshots appended by the reverse loop: one per step, each the
`loopBody` image of the previous signal. -/
def snaps (inv : Tensor → Tensor → Tensor → Tensor → Tensor × Tensor)
    (context styles : Tensor) (stepRand : ℕ → ℕ → ℤ) :
    List ℕ → Tensor → List Tensor
  | [], _ => []
  | step :: rest, signal =>
    let s2 := loopBody inv context styles stepRand step signal
    s2 :: snaps inv context styles stepRand rest s2

/-- The signal after running the reverse loop over a step list. -/
def chainRun (inv : Tensor → Tensor → Tensor → Tensor → Tensor × Tensor)
    (context styles : Tensor) (stepRand : ℕ → ℕ → ℤ) :
    List ℕ → Tensor → Tensor
  | [], signal => signal
  | step :: rest, signal =>
    chainRun inv context styles stepRand rest
      (loopBody inv context styles stepRand step signal)

/-! ### Concrete fixtures

A tiny instantiated model and inputs over which the theorems below are
exercised at concrete values. -/

/-- A concrete single-reverse-step collaborator: mean is the input signal,
std is the `[1]`-shaped zero tensor. -/
def cInv : Tensor → Tensor → Tensor → Tensor → Tensor × Tensor :=
  fun sig _ _ _ => (sig, Tensor.mk [1] [0])

/-- A concrete orchestrator with a single diffusion step. -/
def cM : Model :=
  ⟨1, fun t => (t, Tensor.mk [1, 1] [0]), id, cInv⟩

/-- `cM` with a different style encoder and all other fields unchanged. -/
def cM2 : Model :=
  { cM with encoder := fun t => (t, Tensor.mk [1, 1] [5]) }

/-- A concrete `[1, 1, 2]` context spectrogram. -/
def cCtx : Tensor := Tensor.mk [1, 1, 2] [0, 0]

/-- A concrete rank-2 (precomputed) style vector. -/
def cSty : Tensor := Tensor.mk [1, 1] [0]

/-- A concrete rank-3 (raw spectrogram) style input. -/
def cSty3 : Tensor := Tensor.mk [1, 1, 1] [0]

/-- Constant unit stream standing in for the initial normal draw. -/
def cR1 : ℕ → ℤ := fun _ => 1

/-- Zero per-step noise streams. -/
def cR2 : ℕ → ℕ → ℤ := fun _ _ => 0

/-- The signal the fixture run produces at every snapshot. -/
def cSig : Tensor := Tensor.mk [1, 1, 2] [1, 1]

/-- A caller-supplied multi-element initial signal of shape `[1, 2, 2]`. -/
def cBad : Tensor := Tensor.mk [1, 2, 2] [1, 0, 0, 1]

/-! ## Helper lemmas -/

theorem rangeDown_succ (S : ℕ) : rangeDown (S + 1) = S :: rangeDown S := by
  simp [rangeDown, List.range_succ]

theorem rangeDown_length (S : ℕ) : (rangeDown S).length = S := by
  simp [rangeDown]

theorem rangeDown_getD (S k : ℕ) (h : k < S) :
    (rangeDown S).getD k 0 = S - 1 - k := by
  induction S generalizing k with
  | zero => omega
  | succ n ih =>
    rw [rangeDown_succ]
    cases k with
    | zero => simp
    | succ k2 =>
      have hk : k2 < n := by omega
      simp only [List.getD_cons_succ]
      rw [ih k2 hk]
      omega

theorem revChain_snd (inv : Tensor → Tensor → Tensor → Tensor → Tensor × Tensor)
    (context styles : Tensor) (stepRand : ℕ → ℕ → ℤ) :
    ∀ (L : List ℕ) (signal : Tensor) (ir : List Tensor),
      (revChain inv context styles stepRand L signal ir).2 =
        ir ++ snaps inv context styles stepRand L signal := by
  intro L
  induction L with
  | nil => intro signal ir; simp [revChain, snaps]
  | cons st rest ih =>
    intro signal ir
    simp only [revChain, snaps]
    rw [ih]
    simp

theorem revChain_fst (inv : Tensor → Tensor → Tensor → Tensor → Tensor × Tensor)
    (context styles : Tensor) (stepRand : ℕ → ℕ → ℤ) :
    ∀ (L : List ℕ) (signal : Tensor) (ir : List Tensor),
      (revChain inv context styles stepRand L signal ir).1 =
        chainRun inv context styles stepRand L signal := by
  intro L
  induction L with
  | nil => intro signal ir; rfl
  | cons st rest ih =>
    intro signal ir
    simp only [revChain, chainRun]
    exact ih _ _

theorem snaps_length (inv : Tensor → Tensor → Tensor → Tensor → Tensor × Tensor)
    (context styles : Tensor) (stepRand : ℕ → ℕ → ℤ) :
    ∀ (L : List ℕ) (signal : Tensor),
      (snaps inv context styles stepRand L signal).length = L.length := by
  intro L
  induction L with
  | nil => intro signal; rfl
  | cons st rest ih =>
    intro signal
    simp only [snaps, List.length_cons]
    rw [ih]

theorem snaps_getLast (inv : Tensor → Tensor → Tensor → Tensor → Tensor × Tensor)
    (context styles : Tensor) (stepRand : ℕ → ℕ → ℤ) :
    ∀ (L : List ℕ) (signal : Tensor),
      (signal :: snaps inv context styles stepRand L signal).getLast? =
        some (chainRun inv context styles stepRand L signal) := by
  intro L
  induction L with
  | nil => intro signal; rfl
  | cons st rest ih =>
    intro signal
    simp only [snaps, chainRun]
    rw [List.getLast?_cons_cons]
    exact ih _

theorem snaps_getD_succ (inv : Tensor → Tensor → Tensor → Tensor → Tensor × Tensor)
    (context styles : Tensor) (stepRand : ℕ → ℕ → ℤ) :
    ∀ (L : List ℕ) (signal : Tensor) (k : ℕ), k < L.length →
      (signal :: snaps inv context styles stepRand L signal).getD (k + 1) (Tensor.mk [] []) =
        loopBody inv context styles stepRand (L.getD k 0)
          ((signal :: snaps inv context styles stepRand L signal).getD k (Tensor.mk [] [])) := by
  intro L
  induction L with
  | nil => intro signal k hk; simp at hk
  | cons st rest ih =>
    intro signal k hk
    cases k with
    | zero =>
      simp only [snaps, List.getD_cons_succ, List.getD_cons_zero]
    | succ k2 =>
      have hk2 : k2 < rest.length := by
        simp only [List.length_cons] at hk
        omega
      simp only [snaps, List.getD_cons_succ]
      exact ih _ k2 hk2

theorem forward_ok_elim (M : Model) (context styles : Tensor) (signal : Option Tensor)
    (initRand : ℕ → ℤ) (stepRand : ℕ → ℕ → ℤ) (fin : Tensor) (ir : List Tensor)
    (h : StyleDDPMVC.forward M context styles signal initRand stepRand = .ok (fin, ir)) :
    ∃ s0, pyOr signal (randnLike context initRand) = .ok s0 ∧
      fin = chainRun M.inverse (M.maskedEncoder context)
        (if styles.dim = 3 then (M.encoder styles).2 else styles) stepRand
        (rangeDown M.S) s0 ∧
      ir = s0 :: snaps M.inverse (M.maskedEncoder context)
        (if styles.dim = 3 then (M.encoder styles).2 else styles) stepRand
        (rangeDown M.S) s0 := by
  cases hp : pyOr signal (randnLike context initRand) with
  | error e =>
    exfalso
    simp only [StyleDDPMVC.forward, hp] at h
    exact Except.noConfusion h
  | ok s0 =>
    simp only [StyleDDPMVC.forward, hp, Except.ok.injEq] at h
    refine ⟨s0, rfl, ?_, ?_⟩
    · have h1 := congrArg Prod.fst h
      simp only at h1
      rw [revChain_fst] at h1
      exact h1.symm
    · have h2 := congrArg Prod.snd h
      simp only at h2
      rw [revChain_snd] at h2
      simpa using h2.symm

theorem sigmoid_pos (x : ℝ) : 0 < sigmoid x := by
  unfold sigmoid
  positivity

theorem sigmoid_lt_one (x : ℝ) : sigmoid x < 1 := by
  unfold sigmoid
  rw [div_lt_one (by positivity)]
  linarith [Real.exp_pos (-x)]

theorem upShapes_append (k : ℕ) (l1 l2 : List (ℕ × ℕ)) (s : ℕ × ℕ) :
    upShapes k (l1 ++ l2) s = (upShapes k l1 s).bind (upShapes k l2) := by
  induction l1 generalizing s with
  | nil => rfl
  | cons a l ih =>
    obtain ⟨cs, ts⟩ := a
    obtain ⟨c, t⟩ := s
    simp only [List.cons_append, upShapes]
    by_cases hup : (c / 2, convOutLen (2 * t) k 1 (k / 2)) = (cs, ts)
    · rw [if_pos hup, if_pos hup]
      exact ih (cs, ts)
    · rw [if_neg hup, if_neg hup]
      rfl

theorem down_up_shapes (k : ℕ) (hk : k % 2 = 1) :
    ∀ (n c m : ℕ), 1 ≤ m →
      upShapes k (downShapes k n (c, m * 2 ^ n)).1.reverse
          (downShapes k n (c, m * 2 ^ n)).2
        = some (c, m * 2 ^ n) := by
  intro n
  induction n with
  | zero =>
    intro c m hm
    rfl
  | succ n ih =>
    intro c m hm
    have hu : 1 ≤ m * 2 ^ n := Nat.one_le_iff_ne_zero.mpr (by positivity)
    have hpow : m * 2 ^ (n + 1) = 2 * (m * 2 ^ n) := by ring
    have hconv : convOutLen (m * 2 ^ (n + 1)) k 2 (k / 2) = m * 2 ^ n := by
      unfold convOutLen
      omega
    have hstep : downShapes k (n + 1) (c, m * 2 ^ (n + 1)) =
        ((c, m * 2 ^ (n + 1)) :: (downShapes k n (2 * c, m * 2 ^ n)).1,
          (downShapes k n (2 * c, m * 2 ^ n)).2) := by
      simp only [downShapes, hconv]
    rw [hstep]
    simp only [List.reverse_cons]
    rw [upShapes_append, ih (2 * c) m hm]
    have h1 : (2 * c) / 2 = c := by omega
    have h2 : convOutLen (2 * (m * 2 ^ n)) k 1 (k / 2) = m * 2 ^ (n + 1) := by
      unfold convOutLen
      omega
    show upShapes k [(c, m * 2 ^ (n + 1))] (2 * c, m * 2 ^ n) = _
    simp only [upShapes, h1, h2, if_pos]

theorem dictFind_of_hasKey_false {α : Type} (d : List (String × α)) (k : String)
    (h : hasKey d k = false) : dictFind d k = .error ("KeyError: " ++ k) := by
  induction d with
  | nil => rfl
  | cons kv rest ih =>
    obtain ⟨k2, v⟩ := kv
    simp only [hasKey, List.any_cons, Bool.or_eq_false_iff, decide_eq_false_iff_not] at h
    simp only [dictFind, if_neg h.1]
    exact ih (by simpa [hasKey] using h.2)

/-! ## Claim theorems -/

/-- C1: `StyleDDPMVC.inverse` returns exactly the spec's posterior —
mean `sqrt(alphas_bar[t]) * betas[t+1] / (1 - alphas_bar[t+1])` times the
denoised estimate plus `sqrt(alphas[t+1]) * (1 - alphas_bar[t]) /
(1 - alphas_bar[t+1])` times the signal, and std
`sqrt((1 - alphas_bar[t]) / (1 - alphas_bar[t+1]) * betas[t+1])`, the
spec's one-based indices `t`, `t-1` realised as `t+1`, `t` after the
zero-based→one-based shift. -/
theorem inverse_matches_spec (logsnr betas : ℕ → ℝ)
    (denoise : ℝ → ℝ → ℝ → ℕ → ℝ) (signal context styles : ℝ) (t : ℕ) :
    StyleDDPMVC.inverse logsnr betas denoise signal context styles t =
      (specPosteriorMean logsnr betas denoise signal context styles t,
        specPosteriorStd logsnr betas t) := rfl

/-- C6: `StyleDDPMVC.diffusion` with `next_ = true` returns mean
`sqrt(1 - betas[t+1]) * signal` and std `sqrt(betas[t+1])`; with
`next_ = false` it returns mean `sqrt(alphas_bar[t+1]) * signal` and std
`sqrt(1 - alphas_bar[t+1])` with `alphas_bar = sigmoid(logsnr)`; in both
modes the mean is returned without any added noise, the std separately. -/
theorem diffusion_matches_spec (logsnr betas : ℕ → ℝ) (signal : ℝ) (t : ℕ) :
    StyleDDPMVC.diffusion logsnr betas signal t true =
        specDiffusionNext betas signal t ∧
      StyleDDPMVC.diffusion logsnr betas signal t false =
        specDiffusionDirect logsnr signal t :=
  ⟨rfl, rfl⟩

/-- C8: for every one-based step index `t ≥ 1`, under the schedule
preconditions `betas[t] ∈ (0,1)` (and `alphas_bar = sigmoid(logsnr)`,
which always lies in `(0,1)`), the posterior variance computed by
`inverse`, `(1 - alphas_bar[t-1]) / (1 - alphas_bar[t]) * betas[t]`,
is nonnegative. -/
theorem posterior_variance_nonneg (logsnr betas : ℕ → ℝ) (t : ℕ)
    (ht : 1 ≤ t) (hb0 : 0 < betas t) (hb1 : betas t < 1) :
    0 ≤ StyleDDPMVC.inverseVar logsnr betas (t - 1) := by
  have h1 : t - 1 + 1 = t := Nat.sub_add_cancel ht
  unfold StyleDDPMVC.inverseVar
  simp only [h1]
  have hnum : 0 ≤ 1 - sigmoid (logsnr (t - 1)) := by
    linarith [sigmoid_lt_one (logsnr (t - 1))]
  have hden : 0 ≤ 1 - sigmoid (logsnr t) := by
    linarith [sigmoid_lt_one (logsnr t)]
  exact mul_nonneg (div_nonneg hnum hden) (le_of_lt hb0)

/-- Witness for C8 at the concrete schedule `logsnr = 0`, `betas = 1/2`,
one-based step `t = 1`. -/
theorem posterior_variance_nonneg_witness :
    0 ≤ StyleDDPMVC.inverseVar (fun _ => (0 : ℝ)) (fun _ => (1 : ℝ) / 2) 0 :=
  posterior_variance_nonneg (fun _ => (0 : ℝ)) (fun _ => (1 : ℝ) / 2) 1
    (le_refl 1) (by norm_num) (by norm_num)

/-- C5: for every `[B, mel, T]` input with `T` a positive multiple of
`2^(stages - 1)` (and an odd convolution kernel, so that torch's
`padding = kernels // 2` preserves/halves lengths exactly), the shape
semantics of `UNet.forward` returns exactly the input shape
`[B, mel, T]`. -/
theorem unet_shape_preserved (mel channels kernels stages b t m : ℕ)
    (hk : kernels % 2 = 1) (hm : 1 ≤ m) (ht : t = m * 2 ^ (stages - 1)) :
    unetShape mel channels kernels stages b t = some (b, mel, t) := by
  subst ht
  unfold unetShape
  rw [down_up_shapes kernels hk (stages - 1) channels m hm]
  simp

/-- Witness for C5: `mel = 8`, `channels = 4`, `kernels = 3`,
`stages = 3`, `B = 1`, `T = 16 = 4 · 2^2`. -/
theorem unet_shape_preserved_witness :
    unetShape 8 4 3 3 1 16 = some (1, 8, 16) :=
  unet_shape_preserved 8 4 3 3 1 16 4 (by norm_num) (by norm_num) (by norm_num)

/-- C7: for any two style vectors and otherwise identical inputs, the
whole downsampling side of `UNet.forward` — input projection, smoothed
context, every downsampling block output / cached skip activation, and
the value entering the neck — is the same `UNet.downPath` value in both
runs, a function that does not receive the styles at all; the styles
enter only through `UNet.upPhase` (the neck and the upsampling blocks). -/
theorem unet_downpath_style_invariant (u : UNet)
    (inputs aux context styles1 styles2 : Tensor) :
    u.forward inputs aux styles1 context =
        u.upPhase (u.downPath inputs aux context) aux styles1 ∧
      u.forward inputs aux styles2 context =
        u.upPhase (u.downPath inputs aux context) aux styles2 :=
  ⟨rfl, rfl⟩

/-- C3: every `forward` call that returns performs exactly `S` reverse
iterations with steps running `S-1` down to `0`: the returned trace has
exactly `S + 1` snapshots — index 0 the initial signal, the last one the
final output — and snapshot `k+1` arises from snapshot `k` as
`signal = mean + randn_like(mean) * std[:, None, None]` (`loopBody`, std
broadcast across the mel and time dimensions) at step `S - 1 - k`. -/
theorem forward_trace_spec (M : Model) (context styles : Tensor)
    (signal : Option Tensor) (initRand : ℕ → ℤ) (stepRand : ℕ → ℕ → ℤ)
    (fin : Tensor) (ir : List Tensor)
    (h : StyleDDPMVC.forward M context styles signal initRand stepRand = .ok (fin, ir)) :
    ir.length = M.S + 1 ∧
      (∃ s0, pyOr signal (randnLike context initRand) = .ok s0 ∧
        ir.getD 0 (Tensor.mk [] []) = s0) ∧
      ir.getLast? = some fin ∧
      ∀ k, k < M.S →
        ir.getD (k + 1) (Tensor.mk [] []) =
          loopBody M.inverse (M.maskedEncoder context)
            (if styles.dim = 3 then (M.encoder styles).2 else styles) stepRand
            (M.S - 1 - k) (ir.getD k (Tensor.mk [] [])) := by
  obtain ⟨s0, hp, hfin, hir⟩ :=
    forward_ok_elim M context styles signal initRand stepRand fin ir h
  subst hfin
  subst hir
  refine ⟨?_, ⟨s0, hp, rfl⟩, snaps_getLast _ _ _ _ _ _, ?_⟩
  · simp [snaps_length, rangeDown_length]
  · intro k hk
    have hk2 : k < (rangeDown M.S).length := by rw [rangeDown_length]; exact hk
    have hrec := snaps_getD_succ M.inverse (M.maskedEncoder context)
      (if styles.dim = 3 then (M.encoder styles).2 else styles) stepRand
      (rangeDown M.S) s0 k hk2
    rw [rangeDown_getD M.S k hk] at hrec
    exact hrec

/-- Witness for C3: the fixture run (`S = 1`, no supplied signal)
returns `.ok` and its trace satisfies the stated properties. -/
theorem forward_trace_spec_witness :
    ([cSig, cSig] : List Tensor).length = cM.S + 1 ∧
      (∃ s0, pyOr none (randnLike cCtx cR1) = .ok s0 ∧
        ([cSig, cSig] : List Tensor).getD 0 (Tensor.mk [] []) = s0) ∧
      ([cSig, cSig] : List Tensor).getLast? = some cSig ∧
      ∀ k, k < cM.S →
        ([cSig, cSig] : List Tensor).getD (k + 1) (Tensor.mk [] []) =
          loopBody cM.inverse (cM.maskedEncoder cCtx)
            (if cSty.dim = 3 then (cM.encoder cSty).2 else cSty) cR2
            (cM.S - 1 - k) (([cSig, cSig] : List Tensor).getD k (Tensor.mk [] [])) :=
  forward_trace_spec cM cCtx cSty none cR1 cR2 cSig [cSig, cSig] rfl

/-- C10: in every iteration of `forward`'s reverse loop the step tensor
passed to `inverse` is `stepTensor step = ⟨[1], [step]⟩` — shape `[1]`,
a single step value, whatever the batch size of the signal or context —
so every sample of the batch is denoised at the same schedule index,
the `[1]`-shaped step being broadcast downstream. -/
theorem forward_single_step_tensor (M : Model) (context styles : Tensor)
    (signal : Option Tensor) (initRand : ℕ → ℤ) (stepRand : ℕ → ℕ → ℤ)
    (fin : Tensor) (ir : List Tensor)
    (h : StyleDDPMVC.forward M context styles signal initRand stepRand = .ok (fin, ir)) :
    (∀ s, (stepTensor s).shape = [1]) ∧
      ∀ k, k < M.S →
        ir.getD (k + 1) (Tensor.mk [] []) =
          Tensor.addNoise
            (M.inverse (ir.getD k (Tensor.mk [] [])) (M.maskedEncoder context)
              (if styles.dim = 3 then (M.encoder styles).2 else styles)
              (stepTensor (M.S - 1 - k))).1
            (randnLike
              (M.inverse (ir.getD k (Tensor.mk [] [])) (M.maskedEncoder context)
                (if styles.dim = 3 then (M.encoder styles).2 else styles)
                (stepTensor (M.S - 1 - k))).1
              (stepRand (M.S - 1 - k)))
            (M.inverse (ir.getD k (Tensor.mk [] [])) (M.maskedEncoder context)
              (if styles.dim = 3 then (M.encoder styles).2 else styles)
              (stepTensor (M.S - 1 - k))).2 := by
  obtain ⟨s0, hp, hfin, hir⟩ :=
    forward_ok_elim M context styles signal initRand stepRand fin ir h
  subst hfin
  subst hir
  refine ⟨fun _ => rfl, ?_⟩
  intro k hk
  have hk2 : k < (rangeDown M.S).length := by rw [rangeDown_length]; exact hk
  have hrec := snaps_getD_succ M.inverse (M.maskedEncoder context)
    (if styles.dim = 3 then (M.encoder styles).2 else styles) stepRand
    (rangeDown M.S) s0 k hk2
  rw [rangeDown_getD M.S k hk] at hrec
  exact hrec

/-- Witness for C10 on the fixture run. -/
theorem forward_single_step_tensor_witness :
    (∀ s, (stepTensor s).shape = [1]) ∧
      ∀ k, k < cM.S →
        ([cSig, cSig] : List Tensor).getD (k + 1) (Tensor.mk [] []) =
          Tensor.addNoise
            (cM.inverse (([cSig, cSig] : List Tensor).getD k (Tensor.mk [] []))
              (cM.maskedEncoder cCtx)
              (if cSty.dim = 3 then (cM.encoder cSty).2 else cSty)
              (stepTensor (cM.S - 1 - k))).1
            (randnLike
              (cM.inverse (([cSig, cSig] : List Tensor).getD k (Tensor.mk [] []))
                (cM.maskedEncoder cCtx)
                (if cSty.dim = 3 then (cM.encoder cSty).2 else cSty)
                (stepTensor (cM.S - 1 - k))).1
              (cR2 (cM.S - 1 - k)))
            (cM.inverse (([cSig, cSig] : List Tensor).getD k (Tensor.mk [] []))
              (cM.maskedEncoder cCtx)
              (if cSty.dim = 3 then (cM.encoder cSty).2 else cSty)
              (stepTensor (cM.S - 1 - k))).2 :=
  forward_single_step_tensor cM cCtx cSty none cR1 cR2 cSig [cSig, cSig] rfl

/-- C4: the style branch dispatches on input rank — a rank-3 style input
makes `forward` equal to the encoder-free remainder `forwardCore` run on
the Style Encoder's style-vector output (encoding happens exactly once,
up front), while on a rank-2 style input `forward` never consults the
Style Encoder at all: any two models agreeing on every field except the
encoder produce identical results, with the supplied vector used
unchanged. -/
theorem style_branch_dispatch (M M2 : Model) (hS : M.S = M2.S)
    (hme : M.maskedEncoder = M2.maskedEncoder) (hinv : M.inverse = M2.inverse)
    (context styles : Tensor) (signal : Option Tensor)
    (initRand : ℕ → ℤ) (stepRand : ℕ → ℕ → ℤ) :
    (styles.dim = 3 →
      StyleDDPMVC.forward M context styles signal initRand stepRand =
        StyleDDPMVC.forwardCore M context ((M.encoder styles).2) signal
          initRand stepRand) ∧
      (styles.dim = 2 →
        StyleDDPMVC.forward M context styles signal initRand stepRand =
          StyleDDPMVC.forward M2 context styles signal initRand stepRand) := by
  constructor
  · intro h3
    cases hp : pyOr signal (randnLike context initRand) with
    | error e =>
      simp only [StyleDDPMVC.forward, StyleDDPMVC.forwardCore, hp]
    | ok s0 =>
      simp only [StyleDDPMVC.forward, StyleDDPMVC.forwardCore, hp, h3, if_pos]
  · intro h2
    have h3 : ¬styles.dim = 3 := by omega
    cases hp : pyOr signal (randnLike context initRand) with
    | error e =>
      simp only [StyleDDPMVC.forward, hp]
    | ok s0 =>
      simp [StyleDDPMVC.forward, hp, h3, hS, hme, hinv]

/-- Witness for C4: on the fixture, a rank-3 style input routes through
the encoder into `forwardCore`, and a rank-2 style input makes the run
independent of the encoder (`cM2` differs from `cM` only there). -/
theorem style_branch_dispatch_witness :
    StyleDDPMVC.forward cM cCtx cSty3 none cR1 cR2 =
        StyleDDPMVC.forwardCore cM cCtx ((cM.encoder cSty3).2) none cR1 cR2 ∧
      StyleDDPMVC.forward cM cCtx cSty none cR1 cR2 =
        StyleDDPMVC.forward cM2 cCtx cSty none cR1 cR2 :=
  ⟨(style_branch_dispatch cM cM rfl rfl rfl cCtx cSty3 none cR1 cR2).1 rfl,
    (style_branch_dispatch cM cM2 rfl rfl rfl cCtx cSty none cR1 cR2).2 rfl⟩

/-- C2 (counterexample): supplying an initial signal tensor of shape
`[B, mel, T]` does not make `forward` use it — the source line
`signal = signal or torch.randn_like(context)` coerces the supplied
tensor through `bool(...)`, which raises for any multi-element tensor;
here the concrete `[1, 2, 2]` signal `cBad` makes the run raise instead
of starting the chain from `cBad`. -/
theorem forward_supplied_signal_raises :
    StyleDDPMVC.forward cM cCtx cSty (some cBad) cR1 cR2 =
      .error "Boolean value of Tensor with more than one element is ambiguous" := rfl

/-- C9: `save` always writes the key `model` with the full parameter
state, and writes `optim` iff an optimizer was passed; `load` restores
the optimizer state iff an optimizer is passed, errors when an optimizer
is passed but the checkpoint lacks `optim`, and a missing `optim` key is
no error when no optimizer is passed. -/
theorem save_load_contract {α : Type} (modelState : α) (optim : Option α)
    (m : α) (states : List (String × α)) :
    dictFind (StyleDDPMVC.save modelState optim) "model" = .ok modelState ∧
      hasKey (StyleDDPMVC.save modelState optim) "optim" = optim.isSome ∧
      (dictFind states "model" = .ok m → hasKey states "optim" = false →
        StyleDDPMVC.load states true = .error ("KeyError: " ++ "optim") ∧
          StyleDDPMVC.load states false = .ok (m, none)) ∧
      ∀ o, dictFind states "model" = .ok m → dictFind states "optim" = .ok o →
        StyleDDPMVC.load states true = .ok (m, some o) ∧
          StyleDDPMVC.load states false = .ok (m, none) := by
  refine ⟨?_, ?_, ?_, ?_⟩
  · cases optim <;> rfl
  · cases optim <;> rfl
  · intro hm hno
    have hmiss := dictFind_of_hasKey_false states "optim" hno
    constructor
    · simp [StyleDDPMVC.load, hm, hmiss]
    · simp [StyleDDPMVC.load, hm]
  · intro o hm ho
    constructor
    · simp [StyleDDPMVC.load, hm, ho]
    · simp [StyleDDPMVC.load, hm]

/-- Witness for C9 with a one-entry parameter blob: a checkpoint saved
without an optimizer has `model` but no `optim`; loading it with an
optimizer requested errors, without one succeeds. -/
theorem save_load_contract_witness :
    dictFind (StyleDDPMVC.save (0 : ℤ) none) "model" = .ok 0 ∧
      hasKey (StyleDDPMVC.save (0 : ℤ) none) "optim" =
        Option.isSome (none : Option ℤ) ∧
      StyleDDPMVC.load (StyleDDPMVC.save (0 : ℤ) none) true =
        .error ("KeyError: " ++ "optim") ∧
      StyleDDPMVC.load (StyleDDPMVC.save (0 : ℤ) none) false = .ok (0, none) := by
  have hc := save_load_contract (0 : ℤ) none 0 (StyleDDPMVC.save (0 : ℤ) none)
  exact ⟨hc.1, hc.2.1, (hc.2.2.1 rfl rfl).1, (hc.2.2.1 rfl rfl).2⟩
